import Mathlib

/-!
# Verification of the Bayes++ UD-factorised Kalman filter (`UD_scheme`)

Shallow embedding of `src/Bayes++/BayesFilter/UDFlt.cpp` (and the parts of
`bayesFlt.cpp` it relies on) over exact rational arithmetic.

Vectors are modelled as `Nat → ℚ` and matrices as `Nat → Nat → ℚ`; every
operation carries the explicit dimensions used by the source (state size `n`,
process-noise sizes `q_size`/`q_max`, observation size `z_size`).  In-place
mutation of the C++ member matrices/vectors becomes explicit state passing;
C++ exceptions (`Numeric_exception`, `Logic_exception` thrown by
`Bayes_base::error`, see `bayesFlt.cpp`) become an `Except` whose error also
carries the member state at the moment of the throw, since the C++ members
keep their partially-updated values when an exception propagates.

The numeric toolkit (`FM::UdUfactor`, `FM::UdUrecompose`, `FM::UdUrcond`) and
the conditioning policy `Numerical_rcond::check_PSD` are repository code that
is not part of the supplied sources; they are modelled from the spec where
indicated below.
-/

namespace Bayespp

/-- Vectors: index `→` entry value (entries beyond the active length are
scratch, exactly like the over-allocated C++ buffers). -/
abbrev Vecq : Type := Nat → ℚ

/-- Dense row-major matrices: row index, column index `→` entry. -/
abbrev Mat : Type := Nat → Nat → ℚ

/-- Single in-place element write `M(r,c) = qv`. -/
def setM (M : Mat) (r c : Nat) (qv : ℚ) : Mat :=
  fun i j => if i = r ∧ j = c then qv else M i j

/-- The two C++ failure kinds of `Bayes_base::error`:
`Numeric_exception` and `Logic_exception`, each carrying its cause string. -/
inductive Failure where
  | numeric (msg : String)
  | logic (msg : String)
deriving DecidableEq

/-- Modelled from the spec: the Conditioning Policy operation
`check_PSD(rcond, message)` of `Numerical_rcond` (declared in `bayesFlt.hpp`,
not among the supplied sources).  Spec 4.2: `rcond == -1` (negative definite)
fails, `rcond` in `[0, threshold)` fails, `rcond >= threshold` is accepted
silently; spec 7 classifies conditioning failures as Numeric failures. -/
def check_PSD (limit rcond : ℚ) (msg : String) : Except Failure Unit :=
  if rcond < limit then .error (.numeric msg) else .ok ()

/-- Modelled from the spec: the toolkit primitive `estimate_rcond` /
`FM::UdUrcond` (not among the supplied sources).  It estimates the reciprocal
condition number of a UD factor from the first `n` diagonal entries: the
ratio of the extreme diagonal magnitudes, `-1` when a negative diagonal entry
makes the factor not PSD, so that near-singular factors report near zero. -/
def UdUrcond (M : Mat) (n : Nat) : ℚ :=
  if n = 0 then 1
  else
    let ds := (List.range n).map (fun i => M i i)
    let mind := ds.foldr min (M 0 0)
    let maxd := ds.foldr max (M 0 0)
    if mind < 0 then -1 else if maxd = 0 then 0 else mind / maxd

/-- `std::numeric_limits<Float>::max()` for IEEE double, as an exact
rational: the initial value of `rcondmin` in the observe variants. -/
def floatMax : ℚ := ((2 : ℚ) ^ 53 - 1) * 2 ^ 971

namespace UD_scheme

/-! ## `UD_scheme::observeUD` — Bierman scalar measurement update

`UDFlt.cpp` lines 451-524.  The backward sweep computing `a = U'h` and
`b = DU'h` writes `a[j]` (descending `j`) before any later read, so each
final buffer entry is a closed form of the inputs; `aVec`/`bVec` below are
those closed forms.  The forward sweep is embedded step by step. -/

/-- `a = U'h` as computed by the backward sweep of `observeUD`:
`a[j] = h[j] + sum_(k<j) UD(k,j)*h[k]` (rows `k < j` still hold `h[k]` when
row `j` is processed, because `j` descends). -/
def aVec (UD : Mat) (h : Vecq) (j : Nat) : ℚ :=
  h j + ∑ k ∈ Finset.range j, UD k j * h k

/-- `b = DU'h` as computed by `observeUD`: `b[j] = UD(j,j) * a[j]`. -/
def bVec (UD : Mat) (h : Vecq) (j : Nat) : ℚ :=
  UD j j * aVec UD h j

/-- The innovation-variance sequence of `observeUD`'s sweeps:
`alphaSeq j = r + sum_(k<=j) b[k]*a[k]`.  `alphaSeq 0` is the value checked
right after the backward sweep and `alphaSeq j` the value of `alpha` checked
at iteration `j` of the forward sweep (the forward sweep reads `a[j]` and the
not-yet-modified `b[j]`, so the checked values are exactly these). -/
def alphaSeq (UD : Mat) (h : Vecq) (r : ℚ) (j : Nat) : ℚ :=
  r + ∑ k ∈ Finset.range (j + 1), bVec UD h k * aVec UD h k

/-- Mutable state of `observeUD`'s forward sweep: the scalars `alpha` and
`gamma`, the member factor `UD` and the gain buffer `b`. -/
structure OUD where
  alpha : ℚ
  gamma : ℚ
  UD : Mat
  b : Vecq

/-- One iteration `j` of `observeUD`'s forward sweep (`UDFlt.cpp` 497-513).
On `alpha <= 0` the function returns `-1` with the members as mutated so
far: the error carries the failing `alpha` and the factor before this
iteration's writes (the check precedes them). -/
def observeUDstep (a : Vecq) (j : Nat) (st : OUD) : Except (ℚ × Mat) OUD :=
  let alpha' := st.alpha + st.b j * a j
  let lamda := -(a j) * st.gamma
  if alpha' ≤ 0 then .error (alpha', st.UD)
  else
    let gamma' := 1 / alpha'
    .ok { alpha := alpha'
          gamma := gamma'
          UD := fun i jj =>
            if i = j ∧ jj = j then st.UD j j * (st.alpha * gamma')
            else if jj = j ∧ i < j then st.UD i j + lamda * st.b i
            else st.UD i jj
          b := fun i => if i < j then st.b i + st.b j * st.UD i j else st.b i }

/-- The forward sweep of `observeUD` over the listed iteration indices. -/
def observeUDloop (a : Vecq) (st : OUD) : List Nat → Except (ℚ × Mat) OUD
  | [] => .ok st
  | j :: js =>
    match observeUDstep a j st with
    | .error e => .error e
    | .ok st' => observeUDloop a st' js

/-- `UD_scheme::observeUD (gain, alpha, h, r)` (`UDFlt.cpp` 451-524) on the
member factor `UDm` of size `n = UD.size1()`, with `g0` the incoming
contents of the gain buffer (left unwritten on the singular exit).
Returns `(UD, gain, alpha, rcond)`; `rcond = -1` when some intermediate
`alpha <= 0` (singular innovation), else the toolkit estimate of the updated
factor's reciprocal condition number.  The state mean is not part of the
signature: `observeUD` never touches it. -/
def observeUD (UDm : Mat) (n : Nat) (g0 : Vecq) (h : Vecq) (r : ℚ) :
    Mat × Vecq × ℚ × ℚ :=
  let a : Vecq := fun j => aVec UDm h j
  let alpha0 := r + bVec UDm h 0 * a 0
  if alpha0 ≤ 0 then (UDm, g0, alpha0, -1)
  else
    let st0 : OUD :=
      { alpha := alpha0
        gamma := 1 / alpha0
        UD := setM UDm 0 0 (UDm 0 0 * (r * (1 / alpha0)))
        b := fun k => bVec UDm h k }
    match observeUDloop a st0 (List.range' 1 (n - 1)) with
    | .error (alphaF, UDF) => (UDF, g0, alphaF, -1)
    | .ok st =>
      (st.UD, fun j => if j < n then st.b j * st.gamma else g0 j, st.alpha,
        UdUrcond st.UD n)

end UD_scheme

/-! ## Filter state and observe models

The engine's mutable members relevant to the claims are the state mean `x`
(from `Kalman_state_filter`) and the factor matrix `UD`.  The scratch
buffers (`a, b, d, dv, v, h1, w, s, Sd, znorm`, resized by `observe_size`)
hold no state across calls (spec 3) and are modelled as the internal values
threaded through each operation. -/

/-- The engine state mutated by `predict`/`observe`: mean and UD factor. -/
structure UDState where
  x : Vecq
  UD : Mat

/-- `Linrz_uncorrelated_observe_model` (`bayesFlt.hpp` contract): nonlinear
prediction `h(x)`, Jacobian `Hx`, per-component variances `Zv`, and the
`normalise(z, zp)` residual hook (read-only to the engine). -/
structure LinrzUncorrelatedObserveModel where
  h : Vecq → Vecq
  Hx : Mat
  Zv : Vecq
  normalise : Vecq → Vecq → Vecq

/-- `Linrz_correlated_observe_model`: as above with a full noise covariance
`Z`.  The UD engine rejects this combination outright. -/
structure LinrzCorrelatedObserveModel where
  h : Vecq → Vecq
  Hx : Mat
  Z : Mat

/-- `UD_sequential_observe_model`: `ho(x, o)` recomputes the scalar
prediction and writes the member row `Hx_o`; modelled as returning the
pair `(zp, Hx_o)`. -/
structure UDSequentialObserveModel where
  ho : Vecq → Nat → Vecq × Vecq
  Zv : Vecq
  normalise : Vecq → Vecq → Vecq

/-- How a sequential observe variant evaluates one scalar component: given
the current mean and the component index, produce the predicted observation
vector `zp`, the coefficient row fed to `observeUD`, and the variance. -/
abbrev CompFn : Type := Vecq → Nat → Vecq × Vecq × ℚ

/-- Component evaluation of `observe (Linrz_uncorrelated_observe_model&)`
(`UDFlt.cpp` 296-300): recompute `zp = h.h(x)` in full, take row `o` of
`h.Hx` and variance `h.Zv[o]`. -/
def uncorrelatedComp (m : LinrzUncorrelatedObserveModel) : CompFn :=
  fun x o => (m.h x, fun k => m.Hx o k, m.Zv o)

/-- Component evaluation of `observe (UD_sequential_observe_model&)`
(`UDFlt.cpp` 431-437): `zp = h.ho(x, o)` recomputes only component `o` and
yields the fresh row `h.Hx_o`; variance `h.Zv[o]`. -/
def sequentialComp (m : UDSequentialObserveModel) : CompFn :=
  fun x o => ((m.ho x o).1, (m.ho x o).2, m.Zv o)

/-- One iteration `o` of the sequential observe loop shared by the
uncorrelated (`UDFlt.cpp` 293-312) and sequential-model (428-446) variants:
evaluate the component, check `Zv[o] >= 0` (else Numeric failure), run
`observeUD`, route its `rcond` through the Conditioning Policy (else Numeric
failure, the factor already updated), then apply `x += w * s` with the
normalised innovation `s`.  The error carries the members as mutated at the
throw; the `.ok` value carries this component's `rcond`. -/
def observeStep (rcl : ℚ) (n : Nat) (comp : CompFn)
    (norm : Vecq → Vecq → Vecq) (z : Vecq) (o : Nat) (st : UDState) :
    Except (Failure × UDState) (ℚ × UDState) :=
  let c := comp st.x o
  let zp := c.1
  let h1 := c.2.1
  let zvo := c.2.2
  let znorm := norm z zp
  if zvo < 0 then .error (.numeric "Zv not PSD in observe", st)
  else
    let r := UD_scheme.observeUD st.UD n (fun _ => 0) h1 zvo
    let st1 : UDState := { st with UD := r.1 }
    if r.2.2.2 < rcl then .error (.numeric "S not PD in observe", st1)
    else
      let s := znorm o - zp o
      .ok (r.2.2.2, { x := fun i => st1.x i + r.2.1 i * s, UD := st1.UD })

/-- The sequential observe loop over the listed component indices, tracking
`rcondmin` (`if (rcond < rcondmin) rcondmin = rcond`). -/
def observeLoop (rcl : ℚ) (n : Nat) (comp : CompFn)
    (norm : Vecq → Vecq → Vecq) (z : Vecq) :
    List Nat → ℚ → UDState → Except (Failure × UDState) (ℚ × UDState)
  | [], rmin, st => .ok (rmin, st)
  | o :: os, rmin, st =>
    match observeStep rcl n comp norm z o st with
    | .error e => .error e
    | .ok (rc, st') => observeLoop rcl n comp norm z os (min rmin rc) st'

/-- The per-component `rcond` values produced along a run of the sequential
observe loop (empty from the failing component onward). -/
def observeRconds (rcl : ℚ) (n : Nat) (comp : CompFn)
    (norm : Vecq → Vecq → Vecq) (z : Vecq) :
    List Nat → UDState → List ℚ
  | [], _ => []
  | o :: os, st =>
    match observeStep rcl n comp norm z o st with
    | .error _ => []
    | .ok (rc, st') => rc :: observeRconds rcl n comp norm z os st'

namespace UD_scheme

/-- `UD_scheme::observe (Linrz_uncorrelated_observe_model& h, z)`
(`UDFlt.cpp` 270-314): apply the `z_size` scalar components sequentially,
starting `rcondmin` at `std::numeric_limits<Float>::max()`. -/
def observeLinrzUncorrelated (rcl : ℚ) (n : Nat)
    (m : LinrzUncorrelatedObserveModel) (z : Vecq) (zsize : Nat)
    (st : UDState) : Except (Failure × UDState) (ℚ × UDState) :=
  observeLoop rcl n (uncorrelatedComp m) m.normalise z (List.range zsize)
    floatMax st

/-- `UD_scheme::observe (Linrz_correlated_observe_model&, z)` (`UDFlt.cpp`
316-322): no solution for correlated noise with a merely linearised model;
raises a Logic failure immediately, touching neither mean nor factor. -/
def observeLinrzCorrelated (_m : LinrzCorrelatedObserveModel) (_z : Vecq)
    (st : UDState) : Except (Failure × UDState) (ℚ × UDState) :=
  .error (.logic "observe no Linrz_correlated_observe_model solution", st)

/-- `UD_scheme::observe (UD_sequential_observe_model& h, z)` (`UDFlt.cpp`
405-448): the sequential-model fast path of the same loop. -/
def observeUDSequential (rcl : ℚ) (n : Nat) (m : UDSequentialObserveModel)
    (z : Vecq) (zsize : Nat) (st : UDState) :
    Except (Failure × UDState) (ℚ × UDState) :=
  observeLoop rcl n (sequentialComp m) m.normalise z (List.range zsize)
    floatMax st

end UD_scheme

/-! ## Result-inspection helpers (decidable views of `Except` results) -/

/-- Whether an `Except` result is a success. -/
def isOkE {α β : Type} : Except α β → Bool
  | .ok _ => true
  | .error _ => false

/-- Whether an `Except` result is an error. -/
def isErrE {α β : Type} : Except α β → Bool
  | .ok _ => false
  | .error _ => true

/-- The returned `rcond` of a successful observe call (`0` if it failed). -/
def okRcond : Except (Failure × UDState) (ℚ × UDState) → ℚ
  | .ok (r, _) => r
  | .error _ => 0

/-- The member state after a successful call (`dflt` if it failed). -/
def okStateE (dflt : UDState) : Except (Failure × UDState) (ℚ × UDState) → UDState
  | .ok (_, st) => st
  | .error _ => dflt

/-- The member state at the moment of a failure (`dflt` on success). -/
def errStateE (dflt : UDState) : Except (Failure × UDState) (ℚ × UDState) → UDState
  | .ok _ => dflt
  | .error (_, st) => st

/-- The error payload of an `Except Mat Mat` (`dflt` on success). -/
def errMatE (dflt : Mat) : Except Mat Mat → Mat
  | .ok _ => dflt
  | .error M => M

/-! ## `UD_scheme::predictGq` — MWG-S prediction (`UDFlt.cpp` 115-252)

The phases of the C++ function, in order: the `q_max` capacity check, the
augmentation of the scratch diagonal `d` with `q` and of `UD`'s right block
with `G`, the in-place computation `U = Fx*U` on the left block, the MWG-S
orthogonalisation sweep on the transpose (rows `n-1` down to `0`), and the
final transpose/zero of the left block. -/

/-- `Linrz_predict_model` (`bayesFlt.hpp` contract): transition `f`,
Jacobian `Fx`, noise coupling `G` and diagonal noise `q` of length
`qsize` (`q.size()`). -/
structure LinrzPredictModel where
  f : Vecq → Vecq
  Fx : Mat
  G : Mat
  q : Vecq
  qsize : Nat

/-- Augmentation of `UD`'s right scratch block with `G` (`UDFlt.cpp`
145-151): `UD(j, n+i) = G(j,i)` for `j < n`, `i < qsize`. -/
def augmentG (n qsize : Nat) (G UD : Mat) : Mat :=
  fun i j => if i < n ∧ n ≤ j ∧ j < n + qsize then G i (j - n) else UD i j

/-- The working diagonal `d` entering the MWG-S sweep: `d[n+i] = q[i]`
(`UDFlt.cpp` 141-144) and, for `k < n`, the prior diagonal `UD(k,k)`.  In
the source, `d[0..j]` is reused as a column temporary while computing
`U = Fx*U` (lines 156-158) but iteration `j` stores `d[j] = UD(j,j)` and
later iterations only overwrite indices below `j` (line 170 finishes with
`d[0] = UD(0,0)`), so the `d` that survives into the sweep holds exactly
the prior diagonal entries. -/
def predictD (n : Nat) (q : Vecq) (UD : Mat) : Vecq :=
  fun k => if k < n then UD k k else q (k - n)

/-- The in-place `U = Fx*U` computation (`UDFlt.cpp` 153-176): every column
`j < n` of the left block becomes `Fx(i,j) + sum_(k<j) Fx(i,k)*UD(k,j)` for
all rows `i < n` (column `j` is read via the `d` temporary before being
overwritten; column `0` is just `Fx`'s column `0`). -/
def predictFxU (n : Nat) (Fx UD : Mat) : Mat :=
  fun i j =>
    if i < n ∧ j < n then Fx i j + ∑ k ∈ Finset.range j, Fx i k * UD k j
    else UD i j

/-- The MWG-S diagonal pivot at row `j` (`UDFlt.cpp` 182-188):
`e = sum_(k<N) v[k]*dv[k]` with `v` row `j` of the working matrix and
`dv[k] = d[k]*v[k]`. -/
def mwgsPivot (N : Nat) (d : Vecq) (UD : Mat) (j : Nat) : ℚ :=
  ∑ k ∈ Finset.range N, UD j k * (d k * UD j k)

/-- One row `j` of the MWG-S sweep (`UDFlt.cpp` 180-232).  `e > 0`: store
the pivot at `(j,j)`, store the projection coefficients of each lower row
`k < j` at `(j,k)` and eliminate `e*v` from row `k` (the coefficients read
the rows and the `v`,`dv` snapshots taken before any write, so the row
eliminations are independent across `k`).  `e = 0`: store the zero pivot,
then accept only if every product `UD(k,i)*dv[i]` (`k < j`, `i < N`)
vanishes, else `goto Negative`.  `e < 0`: `goto Negative` with nothing
written. -/
def mwgsStep (N : Nat) (d : Vecq) (j : Nat) (UD : Mat) : Except Mat Mat :=
  let e := mwgsPivot N d UD j
  if 0 < e then
    let diaginv := 1 / e
    let ecoef : Vecq :=
      fun k => (∑ i ∈ Finset.range N, UD k i * (d i * UD j i)) * diaginv
    .ok (fun i jj =>
      if i = j ∧ jj = j then e
      else if i = j ∧ jj < j then ecoef jj
      else if i < j ∧ jj < N then UD i jj - ecoef i * UD j jj
      else UD i jj)
  else if e = 0 then
    if ∀ k, k < j → ∀ i, i < N → UD k i * (d i * UD j i) = 0
    then .ok (setM UD j j 0)
    else .error (setM UD j j 0)
  else .error UD

/-- The MWG-S sweep over the listed rows (`j = n-1` down to `0`); a
`Negative` exit short-circuits every remaining row. -/
def mwgsLoop (N : Nat) (d : Vecq) : List Nat → Mat → Except Mat Mat
  | [], UD => .ok UD
  | j :: js, UD =>
    match mwgsStep N d j UD with
    | .error M => .error M
    | .ok M => mwgsLoop N d js M

/-- The final transpose of the working lower triangle into the upper
triangle of the left block, zeroing the (scratch-only) lower triangle
(`UDFlt.cpp` 234-243). -/
def transposeZeroLower (n : Nat) (UD : Mat) : Mat :=
  fun i j =>
    if i < j ∧ j < n then UD j i
    else if j < i ∧ i < n then 0
    else UD i j

namespace UD_scheme

/-- `UD_scheme::predictGq (Fx, G, q)` (`UDFlt.cpp` 115-252).  `q.size()`
over the preallocated `q_max` throws a `Logic_exception` before anything is
mutated; `n = 0` skips straight to the rcond estimate; a `Negative` exit of
the sweep returns `-1` with the factor left as mutated so far (the transpose
phase is skipped). -/
def predictGq (q_max n : Nat) (Fx G : Mat) (q : Vecq) (qsize : Nat)
    (UD : Mat) : Except (Failure × Mat) (ℚ × Mat) :=
  if q_max < qsize then
    .error (.logic "Predict model q larger than preallocated space", UD)
  else if n = 0 then .ok (UdUrcond UD n, UD)
  else
    let N := n + qsize
    let d := predictD n q UD
    let UDw := predictFxU n Fx (augmentG n qsize G UD)
    match mwgsLoop N d ((List.range n).reverse) UDw with
    | .error UDe => .ok (-1, UDe)
    | .ok UDc =>
      let UDf := transposeZeroLower n UDc
      .ok (UdUrcond UDf n, UDf)

/-- `UD_scheme::predict (Linrz_predict_model& f)` (`UDFlt.cpp` 95-112):
`x = f.f(x)` first, then `predictGq` on the factor, then the Conditioning
Policy check `check_PSD(rcond, "X not PSD in predict")`. -/
def predict (rcl : ℚ) (q_max n : Nat) (fm : LinrzPredictModel)
    (st : UDState) : Except (Failure × UDState) (ℚ × UDState) :=
  let x' := fm.f st.x
  match predictGq q_max n fm.Fx fm.G fm.q fm.qsize st.UD with
  | .error (f, UD') => .error (f, { x := x', UD := UD' })
  | .ok (rcond, UD') =>
    match check_PSD rcl rcond "X not PSD in predict" with
    | .error f => .error (f, { x := x', UD := UD' })
    | .ok _ => .ok (rcond, { x := x', UD := UD' })

end UD_scheme

/-! ## `UD_scheme::init` / `UD_scheme::update` (`UDFlt.cpp` 61-92)

`init` factorises the covariance `X` in place into the left `n x n` block of
`UD` via the toolkit's `FM::UdUfactor` and routes the returned rcond through
`check_PSD`; `update` defactorises via `FM::UdUrecompose` with no check.
The two toolkit primitives are not among the supplied sources and are
modelled from the spec. -/

/-- Modelled from the spec: one elimination step of the toolkit's in-place
UdU' factorisation at pivot index `m` (processing the highest active index
first).  A negative pivot fails; a zero pivot is accepted only when its
whole column is zero (the factor entry column becoming zero); a positive
pivot `dm` stores `U(i,m) = M(i,m)/dm` and subtracts the rank-one term from
the leading block. -/
def UdUstep (m : Nat) (M : Mat) : Option Mat :=
  if M m m < 0 then none
  else if M m m = 0 then
    if ∀ i, i < m → M i m = 0 then some M else none
  else
    some (fun i j =>
      if i < m ∧ j = m then M i m / M m m
      else if i < m ∧ j < m then M i j - M i m * M j m / M m m
      else M i j)

/-- Modelled from the spec: the toolkit's in-place UdU' factorisation of the
leading `n x n` block, pivoting from index `n-1` down to `0`.  On success
the block holds `U` strictly above the diagonal and `D` on it. -/
def UdUfactorN : Nat → Mat → Option Mat
  | 0, M => some M
  | m + 1, M =>
    match UdUstep m M with
    | none => none
    | some M1 => UdUfactorN m M1

/-- Modelled from the spec: `factorize(M) -> (U, D, rcond)` /
`FM::UdUfactor`: in-place factorisation returning the reciprocal condition
estimate, `-1` when the block is not PSD. -/
def UdUfactor (M : Mat) (n : Nat) : Mat × ℚ :=
  match UdUfactorN n M with
  | none => (M, -1)
  | some M' => (M', UdUrcond M' n)

/-- The unit-upper-triangular factor read off a factored block: implicit
ones on the diagonal, stored entries above it, zero below. -/
def Uval (M : Mat) (i k : Nat) : ℚ :=
  if i = k then 1 else if i < k then M i k else 0

/-- Modelled from the spec: `recompose(U, D)` / `FM::UdUrecompose`: rebuild
the covariance `U D U'` from a factored block, a plain total computation
with no conditioning check. -/
def UdUrecompose (M : Mat) (n : Nat) : Mat :=
  fun i j => ∑ k ∈ Finset.range n, Uval M i k * (M k k * Uval M j k)

namespace UD_scheme

/-- The left-block embedding done by `init` before factorising
(`UD.sub_matrix(0,x_size, 0,x_size).assign(X)`, `UDFlt.cpp` 75). -/
def initUD0 (n : Nat) (X UD : Mat) : Mat :=
  fun i j => if i < n ∧ j < n then X i j else UD i j

/-- `UD_scheme::init ()` (`UDFlt.cpp` 61-78): factorise `X` into the left
block of `UD` and check the result with
`rclimit.check_PSD(rcond, "Initial X not PSD")`. -/
def init (rcl : ℚ) (n : Nat) (X UD : Mat) : Except Failure Mat :=
  let r := UdUfactor (initUD0 n X UD) n
  match check_PSD rcl r.2 "Initial X not PSD" with
  | .error f => .error f
  | .ok _ => .ok r.1

/-- `UD_scheme::update ()` (`UDFlt.cpp` 81-92): defactorise `UD` back into
`X` (`FM::UdUrecompose`); a total function, never conditioning-checked. -/
def update (UD : Mat) (n : Nat) : Mat :=
  UdUrecompose UD n

end UD_scheme

/-! # Claims -/

/-- C5: for every correlated-noise observe model that is only linearised,
invoking `observe` immediately raises a Logic failure; the member state
carried at the throw is the incoming state itself, so neither the state
mean nor the UD factor is altered. -/
theorem C5_correlated_linrz_observe_rejected (m : LinrzCorrelatedObserveModel)
    (z : Vecq) (st : UDState) :
    UD_scheme.observeLinrzCorrelated m z st =
      .error (.logic "observe no Linrz_correlated_observe_model solution", st) :=
  rfl

/-- C4: for every predict model whose process-noise vector `q` is longer
than the preallocated maximum `q_max`, `predict` raises a Logic failure, and
the UD factor carried at the throw is the incoming factor unchanged: the
capacity check in `predictGq` precedes every factor write. -/
theorem C4_predict_capacity_logic_failure (rcl : ℚ) (q_max n : Nat)
    (fm : LinrzPredictModel) (st : UDState) (hq : q_max < fm.qsize) :
    UD_scheme.predict rcl q_max n fm st =
      .error (.logic "Predict model q larger than preallocated space",
        { x := fm.f st.x, UD := st.UD }) ∧
    UD_scheme.predictGq q_max n fm.Fx fm.G fm.q fm.qsize st.UD =
      .error (.logic "Predict model q larger than preallocated space", st.UD) := by
  have hgq : UD_scheme.predictGq q_max n fm.Fx fm.G fm.q fm.qsize st.UD =
      .error (.logic "Predict model q larger than preallocated space", st.UD) := by
    simp [UD_scheme.predictGq, hq]
  refine ⟨?_, hgq⟩
  simp [UD_scheme.predict, hgq]

/-- C4 witness at a concrete input. -/
theorem C4_predict_capacity_logic_failure_witness :
    (0 : Nat) < 1 ∧
    UD_scheme.predict 1 0 1
        { f := fun x => x, Fx := fun _ _ => 1, G := fun _ _ => 1,
          q := fun _ => 1, qsize := 1 }
        { x := fun _ => 0, UD := fun _ _ => 1 } =
      .error (.logic "Predict model q larger than preallocated space",
        { x := (fun x => x) (fun (_ : Nat) => (0 : ℚ)), UD := fun _ _ => 1 }) :=
  ⟨Nat.zero_lt_one,
    (C4_predict_capacity_logic_failure 1 0 1
      { f := fun x => x, Fx := fun _ _ => 1, G := fun _ _ => 1,
        q := fun _ => 1, qsize := 1 }
      { x := fun _ => 0, UD := fun _ _ => 1 } Nat.zero_lt_one).1⟩

/-- C10: `predict` computes `x = f.f(x)` before calling `predictGq`, so when
`q.size() > q_max` raises the Logic failure, the mean carried at the throw
is already `f(x)` while the UD factor is still the incoming one. -/
theorem C10_predict_mean_advanced_on_capacity_failure (rcl : ℚ)
    (q_max n : Nat) (fm : LinrzPredictModel) (st : UDState)
    (hq : q_max < fm.qsize) :
    isErrE (UD_scheme.predict rcl q_max n fm st) = true ∧
    (∀ i, (errStateE st (UD_scheme.predict rcl q_max n fm st)).x i =
      fm.f st.x i) ∧
    (∀ i j, (errStateE st (UD_scheme.predict rcl q_max n fm st)).UD i j =
      st.UD i j) := by
  have hgq : UD_scheme.predictGq q_max n fm.Fx fm.G fm.q fm.qsize st.UD =
      .error (.logic "Predict model q larger than preallocated space", st.UD) := by
    simp [UD_scheme.predictGq, hq]
  refine ⟨?_, ?_, ?_⟩ <;> simp [UD_scheme.predict, hgq, errStateE, isErrE]

/-- C10 witness at a concrete input. -/
theorem C10_predict_mean_advanced_witness :
    (0 : Nat) < 1 ∧
    (∀ i, (errStateE { x := fun _ => 0, UD := fun _ _ => 1 }
        (UD_scheme.predict 1 0 1
          { f := fun x => fun i => x i + 7, Fx := fun _ _ => 1,
            G := fun _ _ => 1, q := fun _ => 1, qsize := 1 }
          { x := fun _ => 0, UD := fun _ _ => 1 })).x i =
      (fun i => (fun (_ : Nat) => (0 : ℚ)) i + 7) i) :=
  ⟨Nat.zero_lt_one,
    (C10_predict_mean_advanced_on_capacity_failure 1 0 1
      { f := fun x => fun i => x i + 7, Fx := fun _ _ => 1,
        G := fun _ _ => 1, q := fun _ => 1, qsize := 1 }
      { x := fun _ => 0, UD := fun _ _ => 1 } Nat.zero_lt_one).2.1⟩

/-- Running the sequential observe loop over an appended index list:
first the prefix, then (if it succeeded) the remainder from the reached
state and accumulated `rcondmin`. -/
lemma observeLoop_append (rcl : ℚ) (n : Nat) (comp : CompFn)
    (norm : Vecq → Vecq → Vecq) (z : Vecq) :
    ∀ (l1 l2 : List Nat) (rmin : ℚ) (st : UDState),
      observeLoop rcl n comp norm z (l1 ++ l2) rmin st =
        match observeLoop rcl n comp norm z l1 rmin st with
        | .error e => .error e
        | .ok (r1, st1) => observeLoop rcl n comp norm z l2 r1 st1 := by
  intro l1
  induction l1 with
  | nil => intro l2 rmin st; rfl
  | cons o os ih =>
    intro l2 rmin st
    simp only [List.cons_append, observeLoop]
    cases hstep : observeStep rcl n comp norm z o st with
    | error e => rfl
    | ok p =>
      obtain ⟨rc, st'⟩ := p
      exact ih l2 (min rmin rc) st'

/-- A failing observe step never applies a gain to the mean: the member
state carried by either failure exit has the incoming mean. -/
lemma observeStep_err_mean (rcl : ℚ) (n : Nat) (comp : CompFn)
    (norm : Vecq → Vecq → Vecq) (z : Vecq) (o : Nat) (st : UDState)
    (f : Failure) (stE : UDState)
    (h : observeStep rcl n comp norm z o st = .error (f, stE)) :
    ∀ i, stE.x i = st.x i := by
  simp only [observeStep] at h
  by_cases hzv : (comp st.x o).2.2 < 0
  · rw [if_pos hzv] at h
    have h2 : st = stE := congrArg Prod.snd (Except.error.inj h)
    intro i
    rw [← h2]
  · rw [if_neg hzv] at h
    by_cases hrc : (UD_scheme.observeUD st.UD n (fun _ => 0)
        (comp st.x o).2.1 (comp st.x o).2.2).2.2.2 < rcl
    · rw [if_pos hrc] at h
      have h2 : ({ st with UD := (UD_scheme.observeUD st.UD n (fun _ => 0)
          (comp st.x o).2.1 (comp st.x o).2.2).1 } : UDState) = stE :=
        congrArg Prod.snd (Except.error.inj h)
      intro i
      rw [← h2]
    · rw [if_neg hrc] at h
      exact Except.noConfusion h

/-- C9: during multi-component sequential observation, a scalar sub-update
that fails after a successful prefix aborts the whole `observe` call (the
loop result is exactly the failing step's error, so no further component is
processed and no further gain is applied), while the state carried by that
error keeps the mean produced by the earlier, already-applied components. -/
theorem C9_partial_application_then_abort (rcl : ℚ) (n : Nat)
    (comp : CompFn) (norm : Vecq → Vecq → Vecq) (z : Vecq)
    (l1 : List Nat) (o : Nat) (rest : List Nat) (rmin : ℚ) (st0 : UDState)
    (h1 : isOkE (observeLoop rcl n comp norm z l1 rmin st0) = true)
    (h2 : isErrE (observeStep rcl n comp norm z o
      (okStateE st0 (observeLoop rcl n comp norm z l1 rmin st0))) = true) :
    observeLoop rcl n comp norm z (l1 ++ o :: rest) rmin st0 =
      observeStep rcl n comp norm z o
        (okStateE st0 (observeLoop rcl n comp norm z l1 rmin st0)) ∧
    ∀ i, (errStateE st0 (observeStep rcl n comp norm z o
        (okStateE st0 (observeLoop rcl n comp norm z l1 rmin st0)))).x i =
      (okStateE st0 (observeLoop rcl n comp norm z l1 rmin st0)).x i := by
  cases hrun : observeLoop rcl n comp norm z l1 rmin st0 with
  | error e =>
    rw [hrun] at h1
    simp [isOkE] at h1
  | ok p =>
    obtain ⟨r1, st1⟩ := p
    rw [hrun] at h2
    simp only [okStateE] at h2
    simp only [okStateE]
    cases hstep : observeStep rcl n comp norm z o st1 with
    | ok q =>
      rw [hstep] at h2
      simp [isErrE] at h2
    | error e =>
      obtain ⟨f, stE⟩ := e
      refine ⟨?_, ?_⟩
      · rw [observeLoop_append, hrun]
        simp only [observeLoop, hstep]
      · simp only [errStateE]
        exact observeStep_err_mean rcl n comp norm z o st1 f stE hstep

/-- A backward min-fold never exceeds the matching max-fold. -/
lemma foldr_min_le_foldr_max (l : List ℚ) (a : ℚ) :
    l.foldr min a ≤ l.foldr max a := by
  induction l with
  | nil => exact le_refl a
  | cons x xs ih =>
    simp only [List.foldr_cons]
    exact le_trans (min_le_right x _) (le_trans ih (le_max_right x _))

/-- The modelled rcond estimate never exceeds `1`. -/
lemma UdUrcond_le_one (M : Mat) (n : Nat) : UdUrcond M n ≤ 1 := by
  unfold UdUrcond
  by_cases h0 : n = 0
  · simp [h0]
  · simp only [h0, if_false]
    by_cases hmin :
        ((List.range n).map (fun i => M i i)).foldr min (M 0 0) < 0
    · simp only [hmin, if_true]
      norm_num
    · simp only [hmin, if_false]
      by_cases hmax :
          ((List.range n).map (fun i => M i i)).foldr max (M 0 0) = 0
      · simp only [hmax, if_true]
        norm_num
      · simp only [hmax, if_false]
        have hle := foldr_min_le_foldr_max
          ((List.range n).map (fun i => M i i)) (M 0 0)
        have h0min : (0:ℚ) ≤
            ((List.range n).map (fun i => M i i)).foldr min (M 0 0) :=
          not_lt.mp hmin
        exact div_le_one_of_le₀ hle (le_trans h0min hle)

/-- `observeUD` never reports an rcond above `1` (it is `-1` or the
modelled toolkit estimate). -/
lemma observeUD_rcond_le_one (UDm : Mat) (n : Nat) (g0 h : Vecq) (r : ℚ) :
    (UD_scheme.observeUD UDm n g0 h r).2.2.2 ≤ 1 := by
  simp only [UD_scheme.observeUD]
  by_cases h0 : r + UD_scheme.bVec UDm h 0 * UD_scheme.aVec UDm h 0 ≤ 0
  · rw [if_pos h0]
    norm_num
  · rw [if_neg h0]
    cases hl : UD_scheme.observeUDloop (fun j => UD_scheme.aVec UDm h j)
        { alpha := r + UD_scheme.bVec UDm h 0 * UD_scheme.aVec UDm h 0
          gamma := 1 / (r + UD_scheme.bVec UDm h 0 * UD_scheme.aVec UDm h 0)
          UD := setM UDm 0 0 (UDm 0 0 *
            (r * (1 / (r + UD_scheme.bVec UDm h 0 * UD_scheme.aVec UDm h 0))))
          b := fun k => UD_scheme.bVec UDm h k }
        (List.range' 1 (n - 1)) with
    | error e =>
      obtain ⟨e1, e2⟩ := e
      norm_num
    | ok st =>
      exact UdUrcond_le_one st.UD n

/-- A successful observe step's reported rcond passed the Conditioning
Policy check and is at most `1`. -/
lemma observeStep_ok_rcond (rcl : ℚ) (n : Nat) (comp : CompFn)
    (norm : Vecq → Vecq → Vecq) (z : Vecq) (o : Nat) (st : UDState)
    (rc : ℚ) (st' : UDState)
    (h : observeStep rcl n comp norm z o st = .ok (rc, st')) :
    rcl ≤ rc ∧ rc ≤ 1 := by
  simp only [observeStep] at h
  by_cases hzv : (comp st.x o).2.2 < 0
  · rw [if_pos hzv] at h
    exact Except.noConfusion h
  · rw [if_neg hzv] at h
    by_cases hrc : (UD_scheme.observeUD st.UD n (fun _ => 0)
        (comp st.x o).2.1 (comp st.x o).2.2).2.2.2 < rcl
    · rw [if_pos hrc] at h
      exact Except.noConfusion h
    · rw [if_neg hrc] at h
      have hfst : (UD_scheme.observeUD st.UD n (fun _ => 0)
          (comp st.x o).2.1 (comp st.x o).2.2).2.2.2 = rc :=
        congrArg Prod.fst (Except.ok.inj h)
      exact ⟨hfst ▸ not_lt.mp hrc,
        hfst ▸ observeUD_rcond_le_one st.UD n (fun _ => 0)
          (comp st.x o).2.1 (comp st.x o).2.2⟩

/-- Every collected per-component rcond passed the Conditioning Policy
check and is at most `1`. -/
lemma observeRconds_bounds (rcl : ℚ) (n : Nat) (comp : CompFn)
    (norm : Vecq → Vecq → Vecq) (z : Vecq) :
    ∀ (l : List Nat) (st : UDState) (a : ℚ),
      a ∈ observeRconds rcl n comp norm z l st → rcl ≤ a ∧ a ≤ 1 := by
  intro l
  induction l with
  | nil =>
    intro st a ha
    simp [observeRconds] at ha
  | cons o os ih =>
    intro st a ha
    simp only [observeRconds] at ha
    cases hstep : observeStep rcl n comp norm z o st with
    | error e =>
      rw [hstep] at ha
      simp at ha
    | ok p =>
      obtain ⟨rc, st'⟩ := p
      rw [hstep] at ha
      simp only [List.mem_cons] at ha
      rcases ha with rfl | ha
      · exact observeStep_ok_rcond rcl n comp norm z o st a st' hstep
      · exact ih st' a ha

/-- A successful sequential observe run returns the min-fold of the
per-component rconds over its initial `rcondmin`. -/
lemma observeLoop_ok_rcond_foldl (rcl : ℚ) (n : Nat) (comp : CompFn)
    (norm : Vecq → Vecq → Vecq) (z : Vecq) :
    ∀ (l : List Nat) (rmin : ℚ) (st : UDState),
      isOkE (observeLoop rcl n comp norm z l rmin st) = true →
      okRcond (observeLoop rcl n comp norm z l rmin st) =
        (observeRconds rcl n comp norm z l st).foldl min rmin := by
  intro l
  induction l with
  | nil => intro rmin st _; rfl
  | cons o os ih =>
    intro rmin st hok
    simp only [observeLoop, observeRconds] at hok ⊢
    cases hstep : observeStep rcl n comp norm z o st with
    | error e =>
      rw [hstep] at hok
      simp [isOkE] at hok
    | ok p =>
      obtain ⟨rc, st'⟩ := p
      rw [hstep] at hok
      show okRcond (observeLoop rcl n comp norm z os (min rmin rc) st') =
        List.foldl min rmin (rc :: observeRconds rcl n comp norm z os st')
      rw [List.foldl_cons]
      exact ih (min rmin rc) st' (by simpa using hok)

/-- A nonempty successful run collects at least one rcond. -/
lemma observeRconds_ne_nil (rcl : ℚ) (n : Nat) (comp : CompFn)
    (norm : Vecq → Vecq → Vecq) (z : Vecq) (o : Nat) (os : List Nat)
    (rmin : ℚ) (st : UDState)
    (hok : isOkE (observeLoop rcl n comp norm z (o :: os) rmin st) = true) :
    observeRconds rcl n comp norm z (o :: os) st ≠ [] := by
  simp only [observeLoop, observeRconds] at hok ⊢
  cases hstep : observeStep rcl n comp norm z o st with
  | error e =>
    rw [hstep] at hok
    simp [isOkE] at hok
  | ok p =>
    obtain ⟨rc, st'⟩ := p
    simp

/-- A min-fold is bounded by its initial accumulator. -/
lemma foldl_min_le_init (l : List ℚ) : ∀ a : ℚ, l.foldl min a ≤ a := by
  induction l with
  | nil => intro a; exact le_refl a
  | cons x xs ih =>
    intro a
    simp only [List.foldl_cons]
    exact le_trans (ih (min a x)) (min_le_left a x)

/-- A min-fold is bounded by every list element. -/
lemma foldl_min_le_mem (l : List ℚ) :
    ∀ (a b : ℚ), b ∈ l → l.foldl min a ≤ b := by
  induction l with
  | nil => intro a b hb; simp at hb
  | cons x xs ih =>
    intro a b hb
    simp only [List.foldl_cons]
    rcases List.mem_cons.mp hb with rfl | hb
    · exact le_trans (foldl_min_le_init xs (min a b)) (min_le_right a b)
    · exact ih (min a x) b hb

/-- A min-fold equals its initial accumulator or some list element. -/
lemma foldl_min_mem (l : List ℚ) :
    ∀ a : ℚ, l.foldl min a = a ∨ l.foldl min a ∈ l := by
  induction l with
  | nil => intro a; exact Or.inl rfl
  | cons x xs ih =>
    intro a
    simp only [List.foldl_cons]
    rcases ih (min a x) with heq | hmem
    · rcases min_cases a x with ⟨hax, _⟩ | ⟨hax, _⟩
      · exact Or.inl (by rw [heq, hax])
      · exact Or.inr (by rw [heq, hax]; exact List.mem_cons_self x xs)
    · exact Or.inr (List.mem_cons_of_mem x hmem)

/-- The returned value of a successful sequential observe run started at
`rcondmin = floatMax` is the minimum of the per-component rconds, each of
which passed the Conditioning Policy check. -/
lemma observeLoop_min_property (rcl : ℚ) (n : Nat) (comp : CompFn)
    (norm : Vecq → Vecq → Vecq) (z : Vecq) (zsize : Nat) (st : UDState)
    (hz : 1 ≤ zsize)
    (hok : isOkE (observeLoop rcl n comp norm z (List.range zsize) floatMax
      st) = true) :
    okRcond (observeLoop rcl n comp norm z (List.range zsize) floatMax st) ∈
      observeRconds rcl n comp norm z (List.range zsize) st ∧
    ∀ a ∈ observeRconds rcl n comp norm z (List.range zsize) st,
      okRcond (observeLoop rcl n comp norm z (List.range zsize) floatMax
        st) ≤ a ∧ rcl ≤ a := by
  have hfold := observeLoop_ok_rcond_foldl rcl n comp norm z
    (List.range zsize) floatMax st hok
  have hne : observeRconds rcl n comp norm z (List.range zsize) st ≠ [] := by
    obtain ⟨zs, rfl⟩ : ∃ zs, zsize = zs + 1 := ⟨zsize - 1, by omega⟩
    rw [List.range_succ_eq_map] at hok ⊢
    exact observeRconds_ne_nil rcl n comp norm z 0
      (List.map Nat.succ (List.range zs)) floatMax st hok
  obtain ⟨a0, ha0⟩ := List.exists_mem_of_ne_nil _ hne
  have hbounds := observeRconds_bounds rcl n comp norm z (List.range zsize) st
  have hle_all : ∀ a ∈ observeRconds rcl n comp norm z (List.range zsize) st,
      okRcond (observeLoop rcl n comp norm z (List.range zsize) floatMax
        st) ≤ a := by
    intro a ha
    rw [hfold]
    exact foldl_min_le_mem _ floatMax a ha
  refine ⟨?_, fun a ha => ⟨hle_all a ha, (hbounds a ha).1⟩⟩
  rcases foldl_min_mem (observeRconds rcl n comp norm z (List.range zsize)
      st) floatMax with heq | hmem
  · exfalso
    have h1 : okRcond (observeLoop rcl n comp norm z (List.range zsize)
        floatMax st) ≤ a0 := hle_all a0 ha0
    have h2 : a0 ≤ 1 := (hbounds a0 ha0).2
    rw [hfold, heq] at h1
    have : (1:ℚ) < floatMax := by norm_num [floatMax]
    linarith
  · rw [hfold]
    exact hmem

/-- C2: every observe variant that completes without failure returns the
minimum of the reciprocal condition numbers produced by the per-component
sequential sub-updates (not the last one), and each sub-update's rcond was
routed through the Conditioning Policy check (`rcl <= rcond`) before the
call returns; stated for the uncorrelated-linrz and sequential-model
variants. -/
theorem C2_observe_returns_min_rcond (rcl : ℚ) (n zsize : Nat)
    (mU : LinrzUncorrelatedObserveModel) (mS : UDSequentialObserveModel)
    (z : Vecq) (st : UDState) (hz : 1 ≤ zsize) :
    (isOkE (UD_scheme.observeLinrzUncorrelated rcl n mU z zsize st) = true →
      okRcond (UD_scheme.observeLinrzUncorrelated rcl n mU z zsize st) ∈
        observeRconds rcl n (uncorrelatedComp mU) mU.normalise z
          (List.range zsize) st ∧
      ∀ a ∈ observeRconds rcl n (uncorrelatedComp mU) mU.normalise z
          (List.range zsize) st,
        okRcond (UD_scheme.observeLinrzUncorrelated rcl n mU z zsize st) ≤
          a ∧ rcl ≤ a) ∧
    (isOkE (UD_scheme.observeUDSequential rcl n mS z zsize st) = true →
      okRcond (UD_scheme.observeUDSequential rcl n mS z zsize st) ∈
        observeRconds rcl n (sequentialComp mS) mS.normalise z
          (List.range zsize) st ∧
      ∀ a ∈ observeRconds rcl n (sequentialComp mS) mS.normalise z
          (List.range zsize) st,
        okRcond (UD_scheme.observeUDSequential rcl n mS z zsize st) ≤ a ∧
          rcl ≤ a) := by
  constructor
  · intro hok
    exact observeLoop_min_property rcl n (uncorrelatedComp mU) mU.normalise
      z zsize st hz hok
  · intro hok
    exact observeLoop_min_property rcl n (sequentialComp mS) mS.normalise
      z zsize st hz hok

/-- Concrete uncorrelated model for the C2 witness: two components, each
with coefficient row `[1]` and variance `1`. -/
def c2mU : LinrzUncorrelatedObserveModel :=
  { h := fun _ => fun _ => 0, Hx := fun _ _ => 1, Zv := fun _ => 1,
    normalise := fun zv _ => zv }

/-- Concrete sequential model for the C2 witness, matching `c2mU`. -/
def c2mS : UDSequentialObserveModel :=
  { ho := fun _ _ => (fun _ => 0, fun _ => 1), Zv := fun _ => 1,
    normalise := fun zv _ => zv }

/-- Initial state for the C2 witness: mean `0`, `UD(0,0) = 1`. -/
def c2st : UDState := { x := fun _ => 0, UD := fun _ _ => 1 }

/-- Zero measurement vector for the C2 witness. -/
def c2z : Vecq := fun _ => 0

/-- C2 witness: a successful two-component run on a 1-D state; the theorem
yields the minimum/membership properties of the returned rcond. -/
theorem C2_observe_returns_min_rcond_witness :
    (1 ≤ 2) ∧
    isOkE (UD_scheme.observeLinrzUncorrelated (1/1000) 1 c2mU c2z 2 c2st) =
      true ∧
    isOkE (UD_scheme.observeUDSequential (1/1000) 1 c2mS c2z 2 c2st) =
      true ∧
    (okRcond (UD_scheme.observeLinrzUncorrelated (1/1000) 1 c2mU c2z 2
        c2st) ∈
      observeRconds (1/1000) 1 (uncorrelatedComp c2mU) c2mU.normalise c2z
        (List.range 2) c2st ∧
    ∀ a ∈ observeRconds (1/1000) 1 (uncorrelatedComp c2mU) c2mU.normalise
        c2z (List.range 2) c2st,
      okRcond (UD_scheme.observeLinrzUncorrelated (1/1000) 1 c2mU c2z 2
        c2st) ≤ a ∧ (1/1000 : ℚ) ≤ a) ∧
    (okRcond (UD_scheme.observeUDSequential (1/1000) 1 c2mS c2z 2 c2st) ∈
      observeRconds (1/1000) 1 (sequentialComp c2mS) c2mS.normalise c2z
        (List.range 2) c2st ∧
    ∀ a ∈ observeRconds (1/1000) 1 (sequentialComp c2mS) c2mS.normalise
        c2z (List.range 2) c2st,
      okRcond (UD_scheme.observeUDSequential (1/1000) 1 c2mS c2z 2 c2st) ≤
        a ∧ (1/1000 : ℚ) ≤ a) := by
  have hokU : isOkE (UD_scheme.observeLinrzUncorrelated (1/1000) 1 c2mU
      c2z 2 c2st) = true := by
    norm_num [UD_scheme.observeLinrzUncorrelated, observeLoop, observeStep,
      UD_scheme.observeUD, UD_scheme.aVec, UD_scheme.bVec,
      UD_scheme.observeUDloop, setM, UdUrcond, isOkE, c2mU, c2z, c2st,
      uncorrelatedComp, show List.range 2 = [0, 1] from rfl,
      show List.range 1 = [0] from rfl, List.range'_zero, min_self]
  have hokS : isOkE (UD_scheme.observeUDSequential (1/1000) 1 c2mS c2z 2
      c2st) = true := by
    norm_num [UD_scheme.observeUDSequential, observeLoop, observeStep,
      UD_scheme.observeUD, UD_scheme.aVec, UD_scheme.bVec,
      UD_scheme.observeUDloop, setM, UdUrcond, isOkE, c2mS, c2z, c2st,
      sequentialComp, show List.range 2 = [0, 1] from rfl,
      show List.range 1 = [0] from rfl, List.range'_zero, min_self]
  have hc := C2_observe_returns_min_rcond (1/1000) 1 2 c2mU c2mS c2z c2st
    (by norm_num)
  exact ⟨by norm_num, hokU, hokS, hc.1 hokU, hc.2 hokS⟩

/-- Concrete two-component model for the C9 witness: component `0` has
variance `1` (succeeds), component `1` has variance `-1` (fails the
`Zv` check). -/
def c9comp : CompFn :=
  fun _ o => (fun _ => 0, fun _ => 1, if o = 0 then 1 else -1)

/-- Identity residual hook for the C9 witness. -/
def c9norm : Vecq → Vecq → Vecq := fun zv _ => zv

/-- Zero measurement vector for the C9 witness. -/
def c9z : Vecq := fun _ => 0

/-- Initial state for the C9 witness: mean `0`, `UD(0,0) = 1`. -/
def c9st0 : UDState := { x := fun _ => 0, UD := fun _ _ => 1 }

/-- C9 witness: on a 1-D state, component `0` succeeds and component `1`
fails, so the two-component call aborts with the failing step's error while
the carried mean is the one component `0` produced. -/
theorem C9_partial_application_then_abort_witness :
    isOkE (observeLoop (1/1000) 1 c9comp c9norm c9z [0] floatMax c9st0) =
      true ∧
    isErrE (observeStep (1/1000) 1 c9comp c9norm c9z 1
      (okStateE c9st0
        (observeLoop (1/1000) 1 c9comp c9norm c9z [0] floatMax c9st0))) =
      true ∧
    (observeLoop (1/1000) 1 c9comp c9norm c9z ([0] ++ 1 :: []) floatMax
        c9st0 =
      observeStep (1/1000) 1 c9comp c9norm c9z 1
        (okStateE c9st0
          (observeLoop (1/1000) 1 c9comp c9norm c9z [0] floatMax c9st0)) ∧
    ∀ i, (errStateE c9st0 (observeStep (1/1000) 1 c9comp c9norm c9z 1
        (okStateE c9st0
          (observeLoop (1/1000) 1 c9comp c9norm c9z [0] floatMax
            c9st0)))).x i =
      (okStateE c9st0
        (observeLoop (1/1000) 1 c9comp c9norm c9z [0] floatMax
          c9st0)).x i) := by
  have h1 : isOkE (observeLoop (1/1000) 1 c9comp c9norm c9z [0] floatMax
      c9st0) = true := by
    norm_num [observeLoop, observeStep, UD_scheme.observeUD,
      UD_scheme.aVec, UD_scheme.bVec, UD_scheme.observeUDloop, setM,
      UdUrcond, isOkE, c9comp, c9norm, c9z, c9st0, show List.range 1 = [0] from rfl,
      List.range'_zero, min_self]
  have h2 : isErrE (observeStep (1/1000) 1 c9comp c9norm c9z 1
      (okStateE c9st0
        (observeLoop (1/1000) 1 c9comp c9norm c9z [0] floatMax c9st0))) =
      true := by
    norm_num [observeLoop, observeStep, UD_scheme.observeUD,
      UD_scheme.aVec, UD_scheme.bVec, UD_scheme.observeUDloop, setM,
      UdUrcond, isOkE, isErrE, okStateE, c9comp, c9norm, c9z, c9st0,
      show List.range 1 = [0] from rfl, List.range'_zero, min_self]
  exact ⟨h1, h2, C9_partial_application_then_abort (1/1000) 1 c9comp c9norm
    c9z [0] 1 [] floatMax c9st0 h1 h2⟩

/-- C6: in the MWG-S sweep of `predictGq`, a negative diagonal pivot makes
the sweep return through the `Negative` exit at once, with every remaining
row elimination skipped and no write performed for that row; a zero pivot
is accepted (writing only the zero diagonal) exactly when every product of
a lower-row entry with the noise-weighted row entry vanishes, and otherwise
also short-circuits; a sweep that exits `Negative` makes `predictGq`
return `-1` with the factor as mutated so far. -/
theorem C6_mwgs_pivot_branches (N : Nat) (d : Vecq) (j : Nat)
    (js : List Nat) (UD : Mat) :
    (mwgsPivot N d UD j < 0 → mwgsLoop N d (j :: js) UD = .error UD) ∧
    (mwgsPivot N d UD j = 0 →
      ¬(∀ k, k < j → ∀ i, i < N → UD k i * (d i * UD j i) = 0) →
      mwgsLoop N d (j :: js) UD = .error (setM UD j j 0)) ∧
    (mwgsPivot N d UD j = 0 →
      (∀ k, k < j → ∀ i, i < N → UD k i * (d i * UD j i) = 0) →
      mwgsLoop N d (j :: js) UD = mwgsLoop N d js (setM UD j j 0)) ∧
    (∀ (q_max n qsize : Nat) (Fx G : Mat) (q : Vecq) (UD0 : Mat),
      qsize ≤ q_max → 0 < n →
      isErrE (mwgsLoop (n + qsize) (predictD n q UD0)
        ((List.range n).reverse)
        (predictFxU n Fx (augmentG n qsize G UD0))) = true →
      UD_scheme.predictGq q_max n Fx G q qsize UD0 =
        .ok (-1, errMatE (fun _ _ => 0) (mwgsLoop (n + qsize)
          (predictD n q UD0) ((List.range n).reverse)
          (predictFxU n Fx (augmentG n qsize G UD0))))) := by
  refine ⟨?_, ?_, ?_, ?_⟩
  · intro he
    have h1 : ¬ (0 < mwgsPivot N d UD j) := not_lt.mpr (le_of_lt he)
    have h2 : ¬ (mwgsPivot N d UD j = 0) := ne_of_lt he
    simp only [mwgsLoop, mwgsStep, h1, h2, if_false]
  · intro hz hnot
    have h1 : ¬ (0 < mwgsPivot N d UD j) := by rw [hz]; exact lt_irrefl 0
    simp only [mwgsLoop, mwgsStep, h1, if_false]
    rw [if_pos hz, if_neg hnot]
  · intro hz hall
    have h1 : ¬ (0 < mwgsPivot N d UD j) := by rw [hz]; exact lt_irrefl 0
    simp only [mwgsLoop, mwgsStep, h1, if_false]
    rw [if_pos hz, if_pos hall]
  · intro q_max n qsize Fx G q UD0 hq hn herr
    simp only [UD_scheme.predictGq]
    rw [if_neg (not_lt.mpr hq), if_neg (Nat.pos_iff_ne_zero.mp hn)]
    cases hml : mwgsLoop (n + qsize) (predictD n q UD0)
        ((List.range n).reverse)
        (predictFxU n Fx (augmentG n qsize G UD0)) with
    | error UDe => rfl
    | ok UDc =>
      rw [hml] at herr
      simp [isErrE] at herr

/-- Diagonal metric for the C6 zero-pivot witnesses: `d = (1, -1)`. -/
def c6d : Vecq := fun k => if k = 0 then 1 else -1

/-- All-ones matrix: zero pivot at row `1` under `c6d`, with a nonzero
coupling product at `(k,i) = (0,0)`. -/
def c6UD : Mat := fun _ _ => 1

/-- Matrix with a zero row `0`: zero pivot at row `1` under `c6d`, all
coupling products zero. -/
def c6UDz : Mat := fun i _ => if i = 0 then 0 else 1

/-- C6 witness: a negative pivot short-circuits; a zero pivot with nonzero
coupling short-circuits; a zero pivot with vanishing couplings is accepted;
and a `Negative` sweep exit makes `predictGq` return `-1`. -/
theorem C6_mwgs_pivot_branches_witness :
    (mwgsPivot 1 (fun _ => -1) c6UD 0 < 0 ∧
      mwgsLoop 1 (fun _ => -1) [0] c6UD = .error c6UD) ∧
    (mwgsPivot 2 c6d c6UD 1 = 0 ∧
      ¬(∀ k, k < 1 → ∀ i, i < 2 → c6UD k i * (c6d i * c6UD 1 i) = 0) ∧
      mwgsLoop 2 c6d [1] c6UD = .error (setM c6UD 1 1 0)) ∧
    (mwgsPivot 2 c6d c6UDz 1 = 0 ∧
      (∀ k, k < 1 → ∀ i, i < 2 → c6UDz k i * (c6d i * c6UDz 1 i) = 0) ∧
      mwgsLoop 2 c6d [1] c6UDz = mwgsLoop 2 c6d [] (setM c6UDz 1 1 0)) ∧
    (isErrE (mwgsLoop (1 + 0) (predictD 1 (fun _ => 0) (fun _ _ => -1))
        ((List.range 1).reverse)
        (predictFxU 1 (fun _ _ => 1)
          (augmentG 1 0 (fun _ _ => 0) (fun _ _ => -1)))) = true ∧
      UD_scheme.predictGq 0 1 (fun _ _ => 1) (fun _ _ => 0) (fun _ => 0) 0
          (fun _ _ => -1) =
        .ok (-1, errMatE (fun _ _ => 0) (mwgsLoop (1 + 0)
          (predictD 1 (fun _ => 0) (fun _ _ => -1))
          ((List.range 1).reverse)
          (predictFxU 1 (fun _ _ => 1)
            (augmentG 1 0 (fun _ _ => 0) (fun _ _ => -1)))))) := by
  have hneg : mwgsPivot 1 (fun _ => -1) c6UD 0 < 0 := by
    norm_num [mwgsPivot, c6UD]
  have hz1 : mwgsPivot 2 c6d c6UD 1 = 0 := by
    norm_num [mwgsPivot, c6d, c6UD, Finset.sum_range_succ]
  have hnz : ¬(∀ k, k < 1 → ∀ i, i < 2 →
      c6UD k i * (c6d i * c6UD 1 i) = 0) := by
    intro hall
    have := hall 0 Nat.zero_lt_one 0 (by norm_num)
    norm_num [c6UD, c6d] at this
  have hz2 : mwgsPivot 2 c6d c6UDz 1 = 0 := by
    norm_num [mwgsPivot, c6d, c6UDz, Finset.sum_range_succ]
  have hallz : ∀ k, k < 1 → ∀ i, i < 2 →
      c6UDz k i * (c6d i * c6UDz 1 i) = 0 := by
    intro k hk i _
    interval_cases k
    norm_num [c6UDz]
  have herr : isErrE (mwgsLoop (1 + 0)
      (predictD 1 (fun _ => 0) (fun _ _ => -1)) ((List.range 1).reverse)
      (predictFxU 1 (fun _ _ => 1)
        (augmentG 1 0 (fun _ _ => 0) (fun _ _ => -1)))) = true := by
    norm_num [mwgsLoop, mwgsStep, mwgsPivot, predictD, predictFxU,
      augmentG, isErrE, show List.range 1 = [0] from rfl]
  exact ⟨⟨hneg, (C6_mwgs_pivot_branches 1 (fun _ => -1) 0 [] c6UD).1 hneg⟩,
    ⟨hz1, hnz, (C6_mwgs_pivot_branches 2 c6d 1 [] c6UD).2.1 hz1 hnz⟩,
    ⟨hz2, hallz, (C6_mwgs_pivot_branches 2 c6d 1 [] c6UDz).2.2.1 hz2 hallz⟩,
    ⟨herr, (C6_mwgs_pivot_branches 1 (fun _ => -1) 0 [] c6UD).2.2.2 0 1 0
      (fun _ _ => 1) (fun _ _ => 0) (fun _ => 0) (fun _ _ => -1)
      (le_refl 0) Nat.zero_lt_one herr⟩⟩

/-- Splitting off the last term of the innovation-variance sequence. -/
lemma alphaSeq_succ (UDm : Mat) (h : Vecq) (r : ℚ) (m : Nat) :
    UD_scheme.alphaSeq UDm h r (m + 1) =
      UD_scheme.alphaSeq UDm h r m +
        UD_scheme.bVec UDm h (m + 1) * UD_scheme.aVec UDm h (m + 1) := by
  simp only [UD_scheme.alphaSeq, Finset.sum_range_succ]
  ring

/-- If some innovation variance in the remaining range is `<= 0`, the
forward sweep of `observeUD` exits through the singular branch.  The
invariant: entering the iteration for index `m+1`, `alpha` holds
`alphaSeq m` and the gain buffer entries not yet modified still hold the
backward sweep's `b` values. -/
lemma observeUDloop_singular (UDm : Mat) (h : Vecq) (r : ℚ) :
    ∀ (len m : Nat) (st : UD_scheme.OUD),
      st.alpha = UD_scheme.alphaSeq UDm h r m →
      (∀ k, m + 1 ≤ k → st.b k = UD_scheme.bVec UDm h k) →
      (∃ j, m + 1 ≤ j ∧ j < m + 1 + len ∧ UD_scheme.alphaSeq UDm h r j ≤ 0) →
      ∃ e, UD_scheme.observeUDloop (fun j => UD_scheme.aVec UDm h j) st
        (List.range' (m + 1) len) = .error e := by
  intro len
  induction len with
  | zero =>
    intro m st _ _ hex
    obtain ⟨j, hj1, hj2, _⟩ := hex
    omega
  | succ len ih =>
    intro m st hα hb hex
    have hstep_alpha : st.alpha + st.b (m + 1) * UD_scheme.aVec UDm h (m + 1) =
        UD_scheme.alphaSeq UDm h r (m + 1) := by
      rw [hα, hb (m + 1) le_rfl, ← alphaSeq_succ]
    rw [List.range'_succ]
    cases hstep : UD_scheme.observeUDstep (fun j => UD_scheme.aVec UDm h j)
        (m + 1) st with
    | error e =>
      exact ⟨e, by simp [UD_scheme.observeUDloop, hstep]⟩
    | ok st' =>
      have hloop : UD_scheme.observeUDloop (fun j => UD_scheme.aVec UDm h j) st
          ((m + 1) :: List.range' (m + 1 + 1) len) =
          UD_scheme.observeUDloop (fun j => UD_scheme.aVec UDm h j) st'
            (List.range' (m + 1 + 1) len) := by
        simp only [UD_scheme.observeUDloop, hstep]
      have hstep2 := hstep
      simp only [UD_scheme.observeUDstep] at hstep2
      rw [hstep_alpha] at hstep2
      by_cases hle : UD_scheme.alphaSeq UDm h r (m + 1) ≤ 0
      · exfalso
        rw [if_pos hle] at hstep2
        exact Except.noConfusion hstep2
      · rw [if_neg hle] at hstep2
        have hrec := Except.ok.inj hstep2
        have hα' : st'.alpha = UD_scheme.alphaSeq UDm h r (m + 1) := by
          rw [← hrec]
        have hb' : ∀ k, m + 1 + 1 ≤ k → st'.b k = UD_scheme.bVec UDm h k := by
          intro k hk
          rw [← hrec]
          have hklt : ¬ k < m + 1 := by omega
          simp only [hklt, if_false]
          exact hb k (by omega)
        obtain ⟨j, hj1, hj2, hj3⟩ := hex
        have hjne : j ≠ m + 1 := fun hjeq => hle (hjeq ▸ hj3)
        obtain ⟨e, he⟩ := ih (m + 1) st' hα' hb' ⟨j, by omega, by omega, hj3⟩
        exact ⟨e, by rw [hloop]; exact he⟩

/-- C1: whenever the innovation variance of `observeUD` at the first index,
or any intermediate `alpha` of its forward sweep, is `<= 0`, `observeUD`
returns the sentinel `-1` with the gain buffer unwritten; `observeUD`'s
signature contains no state mean at all, and the calling sequential
observe step then raises a Numeric failure through the Conditioning Policy
with the mean for that scalar component untouched. -/
theorem C1_singular_innovation_rejected (UDm : Mat) (n : Nat) (g0 h : Vecq)
    (r : ℚ) (hex : ∃ j, j < n ∧ UD_scheme.alphaSeq UDm h r j ≤ 0) :
    (UD_scheme.observeUD UDm n g0 h r).2.2.2 = -1 ∧
    (UD_scheme.observeUD UDm n g0 h r).2.1 = g0 ∧
    (∀ (rcl : ℚ) (comp : CompFn) (norm : Vecq → Vecq → Vecq) (z : Vecq)
        (o : Nat) (st : UDState),
      0 < rcl → st.UD = UDm → (comp st.x o).2.1 = h →
      (comp st.x o).2.2 = r →
      ∃ msg stE, observeStep rcl n comp norm z o st =
          .error (.numeric msg, stE) ∧ ∀ i, stE.x i = st.x i) := by
  have halpha0 : UD_scheme.alphaSeq UDm h r 0 =
      r + UD_scheme.bVec UDm h 0 * UD_scheme.aVec UDm h 0 := by
    simp [UD_scheme.alphaSeq]
  have hm : ∀ g0' : Vecq,
      (UD_scheme.observeUD UDm n g0' h r).2.2.2 = -1 ∧
      (UD_scheme.observeUD UDm n g0' h r).2.1 = g0' := by
    intro g0'
    by_cases h0 : r + UD_scheme.bVec UDm h 0 * UD_scheme.aVec UDm h 0 ≤ 0
    · simp [UD_scheme.observeUD, h0]
    · obtain ⟨j, hjn, hj⟩ := hex
      have hj1 : 1 ≤ j := by
        rcases Nat.eq_zero_or_pos j with hj0 | hj0
        · exfalso; rw [hj0, halpha0] at hj; exact h0 hj
        · exact hj0
      obtain ⟨e, he⟩ := observeUDloop_singular UDm h r (n - 1) 0
        { alpha := r + UD_scheme.bVec UDm h 0 * UD_scheme.aVec UDm h 0
          gamma := 1 / (r + UD_scheme.bVec UDm h 0 * UD_scheme.aVec UDm h 0)
          UD := setM UDm 0 0 (UDm 0 0 *
            (r * (1 / (r + UD_scheme.bVec UDm h 0 * UD_scheme.aVec UDm h 0))))
          b := fun k => UD_scheme.bVec UDm h k }
        halpha0.symm (fun _ _ => rfl) ⟨j, hj1, by omega, hj⟩
      obtain ⟨e1, e2⟩ := e
      simp only [Nat.zero_add] at he
      simp only [UD_scheme.observeUD]
      rw [if_neg h0, he]
      exact ⟨rfl, rfl⟩
  refine ⟨(hm g0).1, (hm g0).2, ?_⟩
  intro rcl comp norm z o st hrcl hUD hcomp1 hcomp2
  by_cases hzv : (comp st.x o).2.2 < 0
  · exact ⟨"Zv not PSD in observe", st, by simp [observeStep, hzv], fun i => rfl⟩
  · have hobs : UD_scheme.observeUD st.UD n (fun _ => 0) (comp st.x o).2.1
        (comp st.x o).2.2 = UD_scheme.observeUD UDm n (fun _ => 0) h r := by
      rw [hUD, hcomp1, hcomp2]
    have hlt : (UD_scheme.observeUD st.UD n (fun _ => 0) (comp st.x o).2.1
        (comp st.x o).2.2).2.2.2 < rcl := by
      rw [hobs, (hm (fun _ => 0)).1]
      linarith
    refine ⟨"S not PD in observe",
      { st with UD := (UD_scheme.observeUD st.UD n (fun _ => 0)
          (comp st.x o).2.1 (comp st.x o).2.2).1 }, ?_, fun i => rfl⟩
    simp only [observeStep]
    rw [if_neg hzv, if_pos hlt]

/-- C1 witness: `P = 1`, `h = 1`, `r = -2` makes `alpha = -1` at the first
index; `observeUD` returns `-1` with the gain buffer untouched and the
observe step raises a Numeric failure with the mean unchanged. -/
theorem C1_singular_innovation_rejected_witness :
    (∃ j, j < 1 ∧
      UD_scheme.alphaSeq (fun _ _ => 1) (fun _ => 1) (-2) j ≤ 0) ∧
    (UD_scheme.observeUD (fun _ _ => 1) 1 (fun _ => 0) (fun _ => 1)
      (-2)).2.2.2 = -1 ∧
    (UD_scheme.observeUD (fun _ _ => 1) 1 (fun _ => 0) (fun _ => 1)
      (-2)).2.1 = (fun _ => 0) ∧
    (∃ msg stE, observeStep 1 1
        (fun _ _ => (fun _ => (0 : ℚ), fun _ => (1 : ℚ), (-2 : ℚ)))
        (fun z _ => z) (fun _ => 0) 0
        { x := fun _ => 0, UD := fun _ _ => 1 } =
          .error (.numeric msg, stE) ∧
      ∀ i, stE.x i =
        UDState.x { x := fun _ => 0, UD := fun _ _ => 1 } i) := by
  have hex : ∃ j, j < 1 ∧
      UD_scheme.alphaSeq (fun _ _ => 1) (fun _ => 1) (-2) j ≤ 0 :=
    ⟨0, Nat.zero_lt_one, by
      norm_num [UD_scheme.alphaSeq, UD_scheme.bVec, UD_scheme.aVec]⟩
  have hc := C1_singular_innovation_rejected (fun _ _ => 1) 1 (fun _ => 0)
    (fun _ => 1) (-2) hex
  exact ⟨hex, hc.1, hc.2.1,
    hc.2.2 1 (fun _ _ => (fun _ => (0 : ℚ), fun _ => (1 : ℚ), (-2 : ℚ)))
      (fun z _ => z) (fun _ => 0) 0
      { x := fun _ => 0, UD := fun _ _ => 1 }
      (by norm_num) rfl rfl rfl⟩

/-- C7: for a one-dimensional state with prior variance `P = UD(0,0)` and a
single scalar observation with coefficient `h = 1` and variance `r` with
`P + r > 0`, `observeUD` returns innovation variance `alpha = P + r` and
Kalman gain `P / (P + r)`. -/
theorem C7_scalar_kalman_gain (UDm : Mat) (g0 : Vecq) (r : ℚ)
    (_hr : 0 ≤ r) (hpr : 0 < UDm 0 0 + r) :
    (UD_scheme.observeUD UDm 1 g0 (fun _ => 1) r).2.2.1 = UDm 0 0 + r ∧
    (UD_scheme.observeUD UDm 1 g0 (fun _ => 1) r).2.1 0 =
      UDm 0 0 / (UDm 0 0 + r) := by
  have hb : UD_scheme.bVec UDm (fun _ => 1) 0 = UDm 0 0 := by
    simp [UD_scheme.bVec, UD_scheme.aVec]
  have ha : UD_scheme.aVec UDm (fun _ => 1) 0 = 1 := by
    simp [UD_scheme.aVec]
  have hnot : ¬ (r + UD_scheme.bVec UDm (fun _ => 1) 0 *
      UD_scheme.aVec UDm (fun _ => 1) 0 ≤ 0) := by
    rw [hb, ha, mul_one]
    rw [add_comm] at hpr
    exact not_le.mpr hpr
  have hne0 : UDm 0 0 + r ≠ 0 := ne_of_gt hpr
  constructor
  · simp only [UD_scheme.observeUD, hnot, if_false, Nat.sub_self,
      List.range'_zero, UD_scheme.observeUDloop]
    rw [hb, ha, mul_one, add_comm]
  · simp only [UD_scheme.observeUD, hnot, if_false, Nat.sub_self,
      List.range'_zero, UD_scheme.observeUDloop, Nat.zero_lt_one, if_true]
    rw [hb, ha, mul_one]
    rw [add_comm r (UDm 0 0)]
    rw [mul_one_div]

/-- C7 witness at `P = 4`, `r = 1`: gain `4/5`, innovation variance `5`. -/
theorem C7_scalar_kalman_gain_witness :
    (0 : ℚ) ≤ 1 ∧ (0 : ℚ) < 4 + 1 ∧
    (UD_scheme.observeUD (fun _ _ => 4) 1 (fun _ => 0) (fun _ => 1) 1).2.2.1 =
      4 + 1 ∧
    (UD_scheme.observeUD (fun _ _ => 4) 1 (fun _ => 0) (fun _ => 1) 1).2.1 0 =
      4 / (4 + 1) :=
  ⟨by norm_num, by norm_num,
    (C7_scalar_kalman_gain (fun _ _ => 4) (fun _ => 0) 1 (by norm_num)
      (by norm_num)).1,
    (C7_scalar_kalman_gain (fun _ _ => 4) (fun _ => 0) 1 (by norm_num)
      (by norm_num)).2⟩

/-- The factored block on success (`dflt` on failure). -/
def okMatE (dflt : Mat) : Except Failure Mat → Mat
  | .ok M => M
  | .error _ => dflt

/-- The two ways a factorisation step can succeed: a positive pivot with
the explicit rank-one elimination, or a zero pivot over a zero column
leaving the block unchanged. -/
lemma UdUstep_ok (m : Nat) (M M1 : Mat) (h : UdUstep m M = some M1) :
    (0 < M m m ∧ M1 = fun i j =>
        if i < m ∧ j = m then M i m / M m m
        else if i < m ∧ j < m then M i j - M i m * M j m / M m m
        else M i j) ∨
    (M m m = 0 ∧ (∀ i, i < m → M i m = 0) ∧ M1 = M) := by
  unfold UdUstep at h
  by_cases h1 : M m m < 0
  · rw [if_pos h1] at h
    exact Option.noConfusion h
  · rw [if_neg h1] at h
    by_cases h2 : M m m = 0
    · rw [if_pos h2] at h
      by_cases h3 : ∀ i, i < m → M i m = 0
      · rw [if_pos h3] at h
        exact Or.inr ⟨h2, h3, (Option.some.inj h).symm⟩
      · rw [if_neg h3] at h
        exact Option.noConfusion h
    · rw [if_neg h2] at h
      exact Or.inl ⟨lt_of_le_of_ne (not_lt.mp h1) (Ne.symm h2),
        (Option.some.inj h).symm⟩

/-- A factorisation step at pivot `m` only writes entries `(i, j)` with
`i < m` and `j <= m`. -/
lemma UdUstep_frame (m : Nat) (M M1 : Mat) (h : UdUstep m M = some M1) :
    ∀ i j, m ≤ i ∨ m < j → M1 i j = M i j := by
  intro i j hij
  rcases UdUstep_ok m M M1 h with ⟨_, hM1⟩ | ⟨_, _, hM1⟩
  · rw [hM1]
    have hc1 : ¬ (i < m ∧ j = m) := by omega
    have hc2 : ¬ (i < m ∧ j < m) := by omega
    simp only [hc1, hc2, if_false]
  · rw [hM1]

/-- The recursion below pivot `m` never writes an entry with an index
`>= m`. -/
lemma UdUfactorN_frame :
    ∀ (m : Nat) (M M' : Mat), UdUfactorN m M = some M' →
      ∀ i j, m ≤ i ∨ m ≤ j → M' i j = M i j := by
  intro m
  induction m with
  | zero =>
    intro M M' h i j _
    rw [← Option.some.inj h]
  | succ m ih =>
    intro M M' h i j hij
    have hstep : ∃ M1, UdUstep m M = some M1 ∧ UdUfactorN m M1 = some M' := by
      unfold UdUfactorN at h
      cases hs : UdUstep m M with
      | none => rw [hs] at h; exact Option.noConfusion h
      | some M1 => rw [hs] at h; exact ⟨M1, rfl, h⟩
    obtain ⟨M1, hs, hrec⟩ := hstep
    rw [ih M1 M' hrec i j (by omega)]
    exact UdUstep_frame m M M1 hs i j (by omega)

/-- Correctness of the modelled in-place UdU' factorisation: on success,
recomposing `U D U'` from the factored block reproduces the original
symmetric block exactly. -/
lemma UdUfactorN_recompose :
    ∀ (n : Nat) (M M' : Mat),
      (∀ i j, i < n → j < n → M i j = M j i) →
      UdUfactorN n M = some M' →
      ∀ i j, i < n → j < n → UdUrecompose M' n i j = M i j := by
  intro n
  induction n with
  | zero =>
    intro M M' _ _ i j hi _
    omega
  | succ m ih =>
    intro M M' hsym hfac i j hi hj
    have hstep : ∃ M1, UdUstep m M = some M1 ∧ UdUfactorN m M1 = some M' := by
      unfold UdUfactorN at hfac
      cases hs : UdUstep m M with
      | none => rw [hs] at hfac; exact Option.noConfusion hfac
      | some M1 => rw [hs] at hfac; exact ⟨M1, rfl, hfac⟩
    obtain ⟨M1, hs, hrec⟩ := hstep
    have hframe := UdUfactorN_frame m M1 M' hrec
    have hcolm : ∀ k, M' k m = M1 k m := fun k => hframe k m (Or.inr le_rfl)
    have hdm : M' m m = M1 m m := hframe m m (Or.inl le_rfl)
    have hsum : ∀ i' j', UdUrecompose M' (m + 1) i' j' =
        UdUrecompose M' m i' j' + Uval M' i' m * (M' m m * Uval M' j' m) := by
      intro i' j'
      simp [UdUrecompose, Finset.sum_range_succ]
    have hrowzero : ∀ j', UdUrecompose M' m m j' = 0 := by
      intro j'
      unfold UdUrecompose
      apply Finset.sum_eq_zero
      intro k hk
      have hkm : k < m := Finset.mem_range.mp hk
      have hv : Uval M' m k = 0 := by
        unfold Uval
        rw [if_neg (by omega), if_neg (by omega)]
      rw [hv, zero_mul]
    have hcolzero : ∀ i', UdUrecompose M' m i' m = 0 := by
      intro i'
      unfold UdUrecompose
      apply Finset.sum_eq_zero
      intro k hk
      have hkm : k < m := Finset.mem_range.mp hk
      have hv : Uval M' m k = 0 := by
        unfold Uval
        rw [if_neg (by omega), if_neg (by omega)]
      rw [hv, mul_zero, mul_zero]
    have hUdiag : Uval M' m m = 1 := by
      unfold Uval
      rw [if_pos rfl]
    rcases UdUstep_ok m M M1 hs with ⟨hd, hM1⟩ | ⟨hd0, hcol, hM1⟩
    · -- positive pivot branch
      have hdne : M m m ≠ 0 := ne_of_gt hd
      have hA1 : ∀ i', i' < m → M1 i' m = M i' m / M m m := by
        intro i' hi'
        simp only [hM1]
        rw [if_pos ⟨hi', trivial⟩]
      have hA2 : ∀ i' j', i' < m → j' < m →
          M1 i' j' = M i' j' - M i' m * M j' m / M m m := by
        intro i' j' hi' hj'
        simp only [hM1]
        rw [if_neg (by omega : ¬ (i' < m ∧ j' = m)), if_pos ⟨hi', hj'⟩]
      have hA3 : M1 m m = M m m := by
        simp only [hM1]
        rw [if_neg (by simp : ¬ (m < m ∧ True)),
          if_neg (by simp : ¬ (m < m ∧ m < m))]
      have hsym1 : ∀ i' j', i' < m → j' < m → M1 i' j' = M1 j' i' := by
        intro i' j' hi' hj'
        rw [hA2 i' j' hi' hj', hA2 j' i' hj' hi',
          hsym i' j' (by omega) (by omega)]
        ring
      have ihM := ih M1 M' hsym1 hrec
      have hUlt : ∀ i', i' < m → Uval M' i' m = M i' m / M m m := by
        intro i' hi'
        unfold Uval
        rw [if_neg (by omega), if_pos hi', hcolm, hA1 i' hi']
      by_cases him : i < m
      · by_cases hjm : j < m
        · rw [hsum i j, ihM i j him hjm, hA2 i j him hjm, hUlt i him,
            hUlt j hjm, hdm, hA3]
          field_simp
        · have hjeq : j = m := by omega
          rw [hjeq]
          rw [hsum i m, hcolzero i, hUlt i him, hUdiag, hdm, hA3, zero_add]
          field_simp
      · have hieq : i = m := by omega
        rw [hieq]
        by_cases hjm : j < m
        · rw [hsum m j, hrowzero j, hUlt j hjm, hUdiag, hdm, hA3, zero_add,
            hsym m j (by omega) (by omega)]
          field_simp
        · have hjeq : j = m := by omega
          rw [hjeq]
          rw [hsum m m, hrowzero m, hUdiag, hdm, hA3, zero_add, one_mul,
            mul_one]
    · -- zero pivot over a zero column: the block is unchanged
      have hB : ∀ i' j', M1 i' j' = M i' j' := fun i' j' => by rw [hM1]
      have hsym1 : ∀ i' j', i' < m → j' < m → M1 i' j' = M1 j' i' := by
        intro i' j' hi' hj'
        rw [hB, hB]
        exact hsym i' j' (by omega) (by omega)
      have ihM := ih M1 M' hsym1 hrec
      have hUlt : ∀ i', i' < m → Uval M' i' m = 0 := by
        intro i' hi'
        unfold Uval
        rw [if_neg (by omega), if_pos hi', hcolm, hB]
        exact hcol i' hi'
      by_cases him : i < m
      · by_cases hjm : j < m
        · rw [hsum i j, ihM i j him hjm, hUlt i him, zero_mul, add_zero, hB]
        · have hjeq : j = m := by omega
          rw [hjeq]
          rw [hsum i m, hcolzero i, hUlt i him, zero_mul, add_zero]
          exact (hcol i him).symm
      · have hieq : i = m := by omega
        rw [hieq]
        by_cases hjm : j < m
        · rw [hsum m j, hrowzero j, hUlt j hjm, mul_zero, mul_zero,
            add_zero, hsym m j (by omega) (by omega)]
          exact (hcol j hjm).symm
        · have hjeq : j = m := by omega
          rw [hjeq]
          rw [hsum m m, hrowzero m, hUdiag, hdm, hB, zero_add, one_mul,
            mul_one]

/-- C3: for every symmetric covariance `X` accepted by `init()` (and any
positive conditioning threshold), calling `init()` and then immediately
`update()` reproduces `X` exactly on the `n x n` block — in exact rational
arithmetic the round trip is an identity, hence within any tolerance; and
`update` is a total function with no conditioning check, so it always
succeeds. -/
theorem C3_init_update_roundtrip (rcl : ℚ) (n : Nat) (X UD : Mat)
    (hrcl : 0 < rcl)
    (hsym : ∀ i j, i < n → j < n → X i j = X j i)
    (hok : isOkE (UD_scheme.init rcl n X UD) = true) :
    ∀ i j, i < n → j < n →
      UD_scheme.update (okMatE (fun _ _ => 0) (UD_scheme.init rcl n X UD))
        n i j = X i j := by
  cases hfac : UdUfactorN n (UD_scheme.initUD0 n X UD) with
  | none =>
    exfalso
    have hinit : UD_scheme.init rcl n X UD =
        .error (.numeric "Initial X not PSD") := by
      simp only [UD_scheme.init, UdUfactor, hfac, check_PSD]
      rw [if_pos (by linarith : (-1 : ℚ) < rcl)]
    rw [hinit] at hok
    simp [isOkE] at hok
  | some M' =>
    by_cases hchk : UdUrcond M' n < rcl
    · exfalso
      have hinit : UD_scheme.init rcl n X UD =
          .error (.numeric "Initial X not PSD") := by
        simp only [UD_scheme.init, UdUfactor, hfac, check_PSD]
        rw [if_pos hchk]
      rw [hinit] at hok
      simp [isOkE] at hok
    · have hinit : UD_scheme.init rcl n X UD = .ok M' := by
        simp only [UD_scheme.init, UdUfactor, hfac, check_PSD]
        rw [if_neg hchk]
      rw [hinit]
      intro i j hi hj
      have hsym0 : ∀ i' j', i' < n → j' < n →
          UD_scheme.initUD0 n X UD i' j' = UD_scheme.initUD0 n X UD j' i' := by
        intro i' j' hi' hj'
        simp only [UD_scheme.initUD0, if_pos (And.intro hi' hj'),
          if_pos (And.intro hj' hi')]
        exact hsym i' j' hi' hj'
      have hrt := UdUfactorN_recompose n (UD_scheme.initUD0 n X UD) M'
        hsym0 hfac i j hi hj
      show UD_scheme.update M' n i j = X i j
      unfold UD_scheme.update
      rw [hrt]
      simp only [UD_scheme.initUD0, if_pos (And.intro hi hj)]

/-- C8 counterexample: on a non-PSD `1 x 1` covariance, `init` fails with a
Numeric failure carrying the message `"Initial X not PSD"` — not a Logic
failure, and not the message the claim states. -/
theorem C8_counterexample_numeric_not_logic :
    UD_scheme.init (1/1000) 1 (fun _ _ => -1) (fun _ _ => 0) =
      .error (.numeric "Initial X not PSD") ∧
    Failure.numeric "Initial X not PSD" ≠
      Failure.logic "Initial state covariance not positive-semi-definite" ∧
    Failure.numeric "Initial X not PSD" ≠
      Failure.numeric "Initial state covariance not positive-semi-definite" := by
  refine ⟨?_, by decide, by decide⟩
  norm_num [UD_scheme.init, UD_scheme.initUD0, UdUfactor, UdUfactorN,
    UdUstep, check_PSD]

/-- C8 (amended): whenever the factorisation of the supplied covariance is
unacceptable to the Conditioning Policy, `init()` fails as a Numeric
failure via the Conditioning Policy with the message
`"Initial X not PSD"`. -/
theorem C8_init_unacceptable_numeric_failure (rcl : ℚ) (n : Nat)
    (X UD : Mat)
    (hfail : (UdUfactor (UD_scheme.initUD0 n X UD) n).2 < rcl) :
    UD_scheme.init rcl n X UD = .error (.numeric "Initial X not PSD") := by
  simp only [UD_scheme.init, check_PSD]
  rw [if_pos hfail]

/-- C8 witness: the amended theorem applied at the counterexample's
concrete non-PSD input. -/
theorem C8_init_unacceptable_numeric_failure_witness :
    (UdUfactor (UD_scheme.initUD0 1 (fun _ _ => -1) (fun _ _ => 0)) 1).2 <
      1/1000 ∧
    UD_scheme.init (1/1000) 1 (fun _ _ => -1) (fun _ _ => 0) =
      .error (.numeric "Initial X not PSD") := by
  have hfail : (UdUfactor (UD_scheme.initUD0 1 (fun _ _ => -1)
      (fun _ _ => 0)) 1).2 < 1/1000 := by
    norm_num [UdUfactor, UdUfactorN, UdUstep, UD_scheme.initUD0]
  exact ⟨hfail, C8_init_unacceptable_numeric_failure (1/1000) 1
    (fun _ _ => -1) (fun _ _ => 0) hfail⟩

/-- A concrete symmetric positive-definite `2 x 2` covariance. -/
def c3X : Mat := fun i j => if i = j then 2 else 1

/-- C3 witness: `init` accepts `c3X` and `update` recovers every entry. -/
theorem C3_init_update_roundtrip_witness :
    (0 : ℚ) < 1/1000 ∧
    isOkE (UD_scheme.init (1/1000) 2 c3X (fun _ _ => 0)) = true ∧
    UD_scheme.update
      (okMatE (fun _ _ => 0) (UD_scheme.init (1/1000) 2 c3X (fun _ _ => 0)))
      2 0 1 = c3X 0 1 := by
  have hok : isOkE (UD_scheme.init (1/1000) 2 c3X (fun _ _ => 0)) = true := by
    norm_num [UD_scheme.init, UD_scheme.initUD0, UdUfactor, UdUfactorN,
      UdUstep, UdUrcond, check_PSD, isOkE, c3X,
      show List.range 2 = [0, 1] from rfl, min_def, max_def]
  have hsym : ∀ i j, i < 2 → j < 2 → c3X i j = c3X j i := by
    intro i j _ _
    simp only [c3X]
    by_cases h : i = j
    · rw [h]
    · rw [if_neg h, if_neg (fun hh => h hh.symm)]
  refine ⟨by norm_num, hok, ?_⟩
  exact C3_init_update_roundtrip (1/1000) 2 c3X (fun _ _ => 0) (by norm_num)
    hsym hok 0 1 (by norm_num) (by norm_num)

end Bayespp

